import Mathlib

/-!
Shallow embedding of the asynchronous image-acquisition engine of
PhotoSort.py: the bounded recency cache of ImageLoader with its two
eviction paths, the three-tier priority dispatcher of
PriorityThreadPoolExecutor, the RAW decoder process pool, and the
ResourceManager facade.  Python dictionaries are modelled as association
lists in insertion order (an OrderedDict's order), machine integers as
Nat or Int, and fallible operations return Option or Except.
-/

namespace PhotoSort

/-- A display pixmap; only its null flag is relevant to the cache logic
(`if pixmap and not pixmap.isNull()`). -/
structure Pixmap where
  isNull : Bool
  deriving DecidableEq, Repr

/-- The LRU cache: an OrderedDict from file path to pixmap, kept as an
association list whose head is the oldest (least recently used) entry. -/
abbrev Cache := List (String × Pixmap)

/-- The while-loop of ImageLoader._add_to_cache: pop the oldest entry
(`popitem(last=False)`) while the size is still at or above the limit;
popping an empty cache raises and breaks out of the loop. -/
def evictUntilBelow (limit : Nat) : Cache → Cache
  | [] => []
  | e :: rest =>
    if limit ≤ (e :: rest).length then evictUntilBelow limit rest else e :: rest

/-- ImageLoader._add_to_cache: a missing or null pixmap is ignored;
otherwise evict from the oldest end until below the limit, then place the
path at the most-recently-used end (an OrderedDict assignment followed by
move_to_end, which replaces any existing entry for the same key). -/
def addToCache (limit : Nat) (cache : Cache) (filePath : String)
    (pixmap : Option Pixmap) : Cache :=
  match pixmap with
  | none => cache
  | some p =>
    if p.isNull then cache
    else
      (evictUntilBelow limit cache).filter (fun e => decide (e.1 ≠ filePath))
        ++ [(filePath, p)]

/-- Fold a sequence of insertions through _add_to_cache. -/
def insertAll (limit : Nat) (cache : Cache) : List (String × Pixmap) → Cache
  | [] => cache
  | (p, px) :: rest => insertAll limit (addToCache limit cache p (some px)) rest

/-- The eleven distinct unpinned insertions p1..p11 of scenario A, each
with a valid (non-null) pixmap. -/
def scenarioEleven : List (String × Pixmap) :=
  ["p1", "p2", "p3", "p4", "p5", "p6", "p7", "p8", "p9", "p10", "p11"].map
    (fun p => (p, ⟨false⟩))

theorem evictUntilBelow_length_lt (limit : Nat) (h : 1 ≤ limit) :
    ∀ c : Cache, (evictUntilBelow limit c).length < limit := by
  intro c
  induction c with
  | nil => simpa [evictUntilBelow] using h
  | cons e rest ih =>
    rw [evictUntilBelow]
    split
    · exact ih
    · omega

theorem addToCache_length_le (limit : Nat) (h : 1 ≤ limit) (c : Cache)
    (hc : c.length ≤ limit) (p : String) (px : Option Pixmap) :
    (addToCache limit c p px).length ≤ limit := by
  match px with
  | none => simpa [addToCache] using hc
  | some pix =>
    rw [addToCache]
    split
    · exact hc
    · have h1 := evictUntilBelow_length_lt limit h c
      have h2 := List.length_filter_le (fun e : String × Pixmap => decide (e.1 ≠ p))
        (evictUntilBelow limit c)
      simp only [List.length_append, List.length_cons, List.length_nil]
      omega

theorem insertAll_length_le (limit : Nat) (h : 1 ≤ limit) :
    ∀ (ins : List (String × Pixmap)) (c : Cache), c.length ≤ limit →
      (insertAll limit c ins).length ≤ limit := by
  intro ins
  induction ins with
  | nil => intro c hc; simpa [insertAll] using hc
  | cons e rest ih =>
    intro c hc
    exact ih _ (addToCache_length_le limit h c hc e.1 (some e.2))

/-- C1: after every insertion through _add_to_cache into a cache with
limit L ≥ 1 whose size is within the limit, the size stays at most L; in
particular with limit 10, inserting the distinct unpinned paths p1..p11
in order leaves exactly 10 entries with p1 evicted. -/
theorem c1_cache_bound (L : Nat) (hL : 1 ≤ L) (c : Cache) (hc : c.length ≤ L)
    (ins : List (String × Pixmap)) :
    (insertAll L c ins).length ≤ L ∧
      (insertAll 10 [] scenarioEleven).length = 10 ∧
      "p1" ∉ (insertAll 10 [] scenarioEleven).map Prod.fst := by
  refine ⟨insertAll_length_le L hL ins c hc, by decide, by decide⟩

theorem c1_cache_bound_witness :
    1 ≤ 10 ∧ ([] : Cache).length ≤ 10 ∧
      ((insertAll 10 [] scenarioEleven).length ≤ 10 ∧
        (insertAll 10 [] scenarioEleven).length = 10 ∧
        "p1" ∉ (insertAll 10 [] scenarioEleven).map Prod.fst) :=
  ⟨by decide, by decide, c1_cache_bound 10 (by decide) [] (by decide) scenarioEleven⟩

/-- Preserved (pinned) paths as computed inside
ImageLoader._remove_oldest_items_from_cache: the currently displayed image
plus up to three neighbours on each side, when the loader object carries a
non-negative current index and a file list (the hasattr checks are
modelled by Option-valued attributes). -/
def preservedPaths (currentIndex : Option Int) (imageFiles : Option (List String)) :
    List String :=
  match currentIndex, imageFiles with
  | some i, some files =>
    if 0 ≤ i ∧ i < (files.length : Int) then
      [i, i - 3, i - 2, i - 1, i + 1, i + 2, i + 3].filterMap
        (fun j =>
          if 0 ≤ j ∧ j < (files.length : Int) then files.get? j.toNat else none)
    else []
  | _, _ => []

/-- The mutable ImageLoader attributes the cache logic reads: the cache
itself, its limit, the time of the last pressure adjustment, and the
optional attributes consulted when computing the pinned set. -/
structure ImageLoaderState where
  cache : Cache
  cacheLimit : Nat
  lastCacheAdjustment : Nat
  currentImageIndex : Option Int
  imageFiles : Option (List String)
  deriving DecidableEq, Repr

/-- The key-selection loop of _remove_oldest_items_from_cache: walk the
cache from the oldest end, collecting keys that are not preserved until
the removal budget is exhausted. -/
def selectRemovals (preserved : List String) : Nat → Cache → List String
  | _, [] => []
  | 0, _ :: _ => []
  | n + 1, (k, _) :: rest =>
    if k ∈ preserved then selectRemovals preserved (n + 1) rest
    else k :: selectRemovals preserved n rest

/-- ImageLoader._remove_oldest_items_from_cache: returns the updated
state and the number of entries actually removed; an empty cache or a
zero count returns immediately. -/
def removeOldestItemsFromCache (s : ImageLoaderState) (count : Nat) :
    ImageLoaderState × Nat :=
  if s.cache.isEmpty ∨ count = 0 then (s, 0)
  else
    let preserved := preservedPaths s.currentImageIndex s.imageFiles
    let toRemove := selectRemovals preserved count s.cache
    ({ s with cache := s.cache.filter (fun e => decide (e.1 ∉ toRemove)) },
     toRemove.length)

/-- ImageLoader.check_cache_health at a given memory percentage and
current time: tiered reductions of 50, 30 and 15 percent of the current
cache size behind cooldowns of 5, 10 and 30 seconds.  The Python
truncation int(len * f) agrees with Nat multiplication followed by
division by 100 at these factors for every attainable cache size. -/
def checkCacheHealth (s : ImageLoaderState) (memoryPercent : Nat)
    (currentTime : Nat) : ImageLoaderState :=
  if 95 < memoryPercent ∧ 5 < currentTime - s.lastCacheAdjustment then
    let reduction := max 1 (s.cache.length * 50 / 100)
    let s' := (removeOldestItemsFromCache s reduction).1
    { s' with lastCacheAdjustment := currentTime }
  else if 90 < memoryPercent ∧ 10 < currentTime - s.lastCacheAdjustment then
    let reduction := max 1 (s.cache.length * 30 / 100)
    let s' := (removeOldestItemsFromCache s reduction).1
    { s' with lastCacheAdjustment := currentTime }
  else if 85 < memoryPercent ∧ 30 < currentTime - s.lastCacheAdjustment then
    let reduction := max 1 (s.cache.length * 15 / 100)
    let s' := (removeOldestItemsFromCache s reduction).1
    { s' with lastCacheAdjustment := currentTime }
  else s

theorem selectRemovals_not_preserved (preserved : List String) :
    ∀ (n : Nat) (c : Cache) (k : String),
      k ∈ selectRemovals preserved n c → k ∉ preserved := by
  intro n c
  induction c generalizing n with
  | nil => intro k hk; simp [selectRemovals] at hk
  | cons e rest ih =>
    intro k hk
    match n with
    | 0 => simp [selectRemovals] at hk
    | m + 1 =>
      rw [selectRemovals] at hk
      split at hk
      · exact ih (m + 1) k hk
      · rcases List.mem_cons.mp hk with h | h
        · subst h; assumption
        · exact ih m k h

theorem selectRemovals_nil_preserved :
    ∀ (n : Nat) (c : Cache), selectRemovals [] n c = (c.take n).map Prod.fst := by
  intro n c
  induction c generalizing n with
  | nil => cases n <;> rfl
  | cons e rest ih =>
    match n with
    | 0 => rfl
    | m + 1 =>
      rw [selectRemovals]
      simp only [List.not_mem_nil, if_false, List.take, List.map]
      rw [ih m]

theorem filter_take_keys_eq_drop :
    ∀ (c : Cache) (n : Nat), (c.map Prod.fst).Nodup →
      c.filter (fun e => decide (e.1 ∉ (c.take n).map Prod.fst)) = c.drop n := by
  intro c
  induction c with
  | nil => intro n _; simp
  | cons x xs ih =>
    intro n hnd
    rw [List.map_cons, List.nodup_cons] at hnd
    match n with
    | 0 =>
      rw [List.take_zero, List.drop_zero]
      apply List.filter_eq_self.mpr
      intro a _
      simp
    | m + 1 =>
      rw [List.take_succ_cons, List.map_cons, List.drop_succ_cons]
      rw [List.filter_cons]
      have hx : (decide (x.1 ∉ x.1 :: (xs.take m).map Prod.fst)) = false := by
        simp
      rw [hx, if_neg (by simp)]
      have hcongr : xs.filter
          (fun e => decide (e.1 ∉ x.1 :: (xs.take m).map Prod.fst)) =
          xs.filter (fun e => decide (e.1 ∉ (xs.take m).map Prod.fst)) := by
        apply List.filter_congr
        intro e he
        have hne : e.1 ≠ x.1 := by
          intro hEq
          exact hnd.1 (hEq ▸ List.mem_map_of_mem Prod.fst he)
        simp [List.mem_cons, hne]
      rw [hcongr, ih m hnd.2]

theorem preservedPaths_none (f : Option (List String)) :
    preservedPaths none f = [] := by
  cases f <;> rfl

theorem removeOldest_no_pins (s : ImageLoaderState) (count : Nat)
    (hpres : preservedPaths s.currentImageIndex s.imageFiles = [])
    (hnd : (s.cache.map Prod.fst).Nodup) (h1 : 1 ≤ count)
    (h2 : count ≤ s.cache.length) :
    (removeOldestItemsFromCache s count).1.cache = s.cache.drop count := by
  rw [removeOldestItemsFromCache]
  rw [if_neg]
  · simp only [hpres, selectRemovals_nil_preserved]
    exact filter_take_keys_eq_drop s.cache count hnd
  · rw [List.isEmpty_iff]
    push_neg
    constructor
    · intro h; rw [h] at h2; simp at h2; omega
    · omega

theorem reduction_le_cache (n f : Nat) (hn : 1 ≤ n) (hf : f ≤ 100) :
    max 1 (n * f / 100) ≤ n := by
  have : n * f / 100 ≤ n * 100 / 100 :=
    Nat.div_le_div_right (Nat.mul_le_mul_left n hf)
  simp at this
  omega

/-- C7: with no pinned paths and the longest cooldown elapsed, one
health-check pass at memory 86, 91 and 96 percent removes
max(1, floor(0.15 n)), max(1, floor(0.3 n)) and max(1, floor(0.5 n))
entries from an n-entry cache respectively. -/
theorem c7_pressure_tiers (s : ImageLoaderState) (t : Nat)
    (hn : 1 ≤ s.cache.length)
    (hnd : (s.cache.map Prod.fst).Nodup)
    (hidx : s.currentImageIndex = none)
    (ht : 30 < t - s.lastCacheAdjustment) :
    (checkCacheHealth s 86 t).cache.length
        = s.cache.length - max 1 (s.cache.length * 15 / 100) ∧
      (checkCacheHealth s 91 t).cache.length
        = s.cache.length - max 1 (s.cache.length * 30 / 100) ∧
      (checkCacheHealth s 96 t).cache.length
        = s.cache.length - max 1 (s.cache.length * 50 / 100) := by
  have hpres : preservedPaths s.currentImageIndex s.imageFiles = [] := by
    rw [hidx]; exact preservedPaths_none s.imageFiles
  refine ⟨?_, ?_, ?_⟩
  · rw [checkCacheHealth, if_neg (by omega), if_neg (by omega),
      if_pos ⟨by omega, by omega⟩]
    rw [removeOldest_no_pins s _ hpres hnd (le_max_left 1 _)
      (reduction_le_cache _ 15 hn (by omega))]
    rw [List.length_drop]
  · rw [checkCacheHealth, if_neg (by omega), if_pos ⟨by omega, by omega⟩]
    rw [removeOldest_no_pins s _ hpres hnd (le_max_left 1 _)
      (reduction_le_cache _ 30 hn (by omega))]
    rw [List.length_drop]
  · rw [checkCacheHealth, if_pos ⟨by omega, by omega⟩]
    rw [removeOldest_no_pins s _ hpres hnd (le_max_left 1 _)
      (reduction_le_cache _ 50 hn (by omega))]
    rw [List.length_drop]

/-- A concrete loader state used to witness the pressure-eviction
theorem. -/
def loaderExample : ImageLoaderState :=
  { cache := [("a", ⟨false⟩), ("b", ⟨false⟩)],
    cacheLimit := 10,
    lastCacheAdjustment := 0,
    currentImageIndex := none,
    imageFiles := none }

theorem c7_pressure_tiers_witness :
    1 ≤ loaderExample.cache.length ∧
      (loaderExample.cache.map Prod.fst).Nodup ∧
      loaderExample.currentImageIndex = none ∧
      30 < 31 - loaderExample.lastCacheAdjustment ∧
      ((checkCacheHealth loaderExample 86 31).cache.length
          = loaderExample.cache.length
            - max 1 (loaderExample.cache.length * 15 / 100) ∧
        (checkCacheHealth loaderExample 91 31).cache.length
          = loaderExample.cache.length
            - max 1 (loaderExample.cache.length * 30 / 100) ∧
        (checkCacheHealth loaderExample 96 31).cache.length
          = loaderExample.cache.length
            - max 1 (loaderExample.cache.length * 50 / 100)) :=
  ⟨by decide, by decide, by decide, by decide,
    c7_pressure_tiers loaderExample 31 (by decide) (by decide) (by decide)
      (by decide)⟩

/-- C4 counterexample: with "a" the currently displayed image (hence
pinned), inserting "b" through _add_to_cache into a full cache of limit 1
still evicts the pinned "a" — the insertion-triggered eviction never
consults the pinned set, so the claim as stated is false. -/
theorem c4_counterexample :
    "a" ∈ preservedPaths (some 0) (some ["a"]) ∧
      "a" ∉ (addToCache 1 [("a", ⟨false⟩)] "b" (some ⟨false⟩)).map Prod.fst := by
  decide

/-- C4 amended: the pressure-triggered eviction in
_remove_oldest_items_from_cache never removes a preserved (pinned) path,
for every loader state and removal count; the insertion-triggered
eviction in _add_to_cache offers no such guarantee. -/
theorem c4_pressure_preserves_pinned (s : ImageLoaderState) (count : Nat)
    (p : String)
    (hp : p ∈ preservedPaths s.currentImageIndex s.imageFiles)
    (hc : p ∈ s.cache.map Prod.fst) :
    p ∈ (removeOldestItemsFromCache s count).1.cache.map Prod.fst := by
  rw [removeOldestItemsFromCache]
  split
  · exact hc
  · rcases List.mem_map.mp hc with ⟨e, he, hfst⟩
    apply List.mem_map.mpr
    refine ⟨e, ?_, hfst⟩
    apply List.mem_filter.mpr
    refine ⟨he, ?_⟩
    rw [decide_eq_true_iff]
    intro hmem
    exact selectRemovals_not_preserved _ _ _ _ hmem (hfst ▸ hp)

/-- A loader state whose current image "a" is pinned and cached, used to
witness the amended pinning theorem. -/
def pinnedLoaderExample : ImageLoaderState :=
  { cache := [("a", ⟨false⟩), ("b", ⟨false⟩)],
    cacheLimit := 10,
    lastCacheAdjustment := 0,
    currentImageIndex := some 0,
    imageFiles := some ["a"] }

theorem c4_pressure_preserves_pinned_witness :
    "a" ∈ preservedPaths pinnedLoaderExample.currentImageIndex
        pinnedLoaderExample.imageFiles ∧
      "a" ∈ pinnedLoaderExample.cache.map Prod.fst ∧
      "a" ∈ (removeOldestItemsFromCache pinnedLoaderExample 1).1.cache.map
        Prod.fst :=
  ⟨by decide, by decide,
    c4_pressure_preserves_pinned pinnedLoaderExample 1 "a" (by decide)
      (by decide)⟩

/-- The three FIFO tier queues of PriorityThreadPoolExecutor; the head of
each list is the front of the queue. -/
structure PriorityQueues (α : Type) where
  high : List α
  medium : List α
  low : List α
  deriving DecidableEq, Repr

/-- PriorityThreadPoolExecutor.submit_with_priority: enqueue at the tail
of the matching tier; an unknown priority is coerced to low. -/
def submitWithPriority {α : Type} (q : PriorityQueues α) (priority : String)
    (task : α) : PriorityQueues α :=
  if priority = "high" then { q with high := q.high ++ [task] }
  else if priority = "medium" then { q with medium := q.medium ++ [task] }
  else { q with low := q.low ++ [task] }

/-- One iteration of PriorityThreadPoolExecutor._process_priority_queues:
take from the high queue if non-empty, else medium, else low, handing the
task to the underlying pool; when all tiers are empty nothing is
dispatched and the loop sleeps briefly. -/
def dispatchStep {α : Type} (q : PriorityQueues α) : PriorityQueues α × Option α :=
  match q.high with
  | t :: rest => ({ q with high := rest }, some t)
  | [] =>
    match q.medium with
    | t :: rest => ({ q with medium := rest }, some t)
    | [] =>
      match q.low with
      | t :: rest => ({ q with low := rest }, some t)
      | [] => (q, none)

/-- Run the dispatch loop for a fixed number of iterations, collecting
the tasks handed to the underlying pool in dispatch order. -/
def dispatchRun {α : Type} : Nat → PriorityQueues α → PriorityQueues α × List α
  | 0, q => (q, [])
  | n + 1, q =>
    match dispatchStep q with
    | (q', some t) =>
      let r := dispatchRun n q'
      (r.1, t :: r.2)
    | (q', none) =>
      let r := dispatchRun n q'
      (r.1, r.2)

/-- C2: tasks submitted high, low, high, medium before any dequeue are
dispatched in the order high, high, medium, low; each loop iteration
serves the high tier first, else medium, else low, FIFO within a tier. -/
theorem c2_priority_dispatch {α : Type} (a b c d : α) :
    (dispatchRun 4 (submitWithPriority (submitWithPriority (submitWithPriority
          (submitWithPriority (⟨[], [], []⟩ : PriorityQueues α) "high" a)
          "low" b) "high" c) "medium" d)).2 = [a, c, d, b] ∧
      (∀ (t : α) (h m l : List α),
        dispatchStep ⟨t :: h, m, l⟩ = (⟨h, m, l⟩, some t)) ∧
      (∀ (t : α) (m l : List α),
        dispatchStep ⟨[], t :: m, l⟩ = (⟨[], m, l⟩, some t)) ∧
      (∀ (t : α) (l : List α),
        dispatchStep ⟨[], [], t :: l⟩ = (⟨[], [], l⟩, some t)) := by
  refine ⟨rfl, fun t h m l => rfl, fun t m l => rfl, fun t l => rfl⟩

/-- The pending_tasks dictionary of ResourceManager, keyed by priority; a
missing key is modelled as none.  Cancelling a task only removes it from
this bookkeeping list. -/
structure PendingTasks (α : Type) where
  low : Option (List α)
  medium : Option (List α)
  deriving DecidableEq, Repr

/-- ResourceManager.cancel_low_priority_tasks: cancel every pending low
task; when strictly more than 4 medium tasks are pending, keep only the
first half (len // 2) and cancel the rest. -/
def cancelLowPriorityTasks {α : Type} (p : PendingTasks α) : PendingTasks α :=
  let p1 := match p.low with
    | some _ => { p with low := some [] }
    | none => p
  match p1.medium with
  | some m =>
    if 4 < m.length then { p1 with medium := some (m.take (m.length / 2)) }
    else p1
  | none => p1

/-- ResourceManager.monitor_resources: a no-op unless running; above the
95 percent memory hard threshold it cancels low-priority pending work
(followed in the source by an explicit garbage-collection pass). -/
def monitorResources {α : Type} (running : Bool) (memoryPercent : Nat)
    (p : PendingTasks α) : PendingTasks α :=
  if running then
    if 95 < memoryPercent then cancelLowPriorityTasks p else p
  else p

/-- C6 counterexample: at 96 percent memory with four queued medium
tasks, the monitor cancels none of them — all four remain, which is more
than half, so the claim as stated is false. -/
theorem c6_counterexample :
    (monitorResources true 96
        (⟨some [], some [0, 1, 2, 3]⟩ : PendingTasks Nat)).medium
      = some [0, 1, 2, 3] ∧
      ((monitorResources true 96
          (⟨some [], some [0, 1, 2, 3]⟩ : PendingTasks Nat)).medium.getD
        []).length = 4 ∧
      ¬ (4 ≤ 4 / 2) := by
  decide

/-- C6 amended: when running and memory exceeds the 95 percent threshold,
all pending low-priority tasks are cancelled, while pending medium tasks
are cut to their oldest half only when strictly more than four are
queued and are untouched otherwise; at or below the threshold, or when
not running, nothing is cancelled. -/
theorem c6_monitor_amended {α : Type} (l m : List α) (p : PendingTasks α) :
    monitorResources true 96 (⟨some l, some m⟩ : PendingTasks α)
        = ⟨some [], some (if 4 < m.length then m.take (m.length / 2) else m)⟩ ∧
      monitorResources true 95 p = p ∧
      monitorResources false 96 p = p := by
  refine ⟨?_, rfl, rfl⟩
  show cancelLowPriorityTasks (⟨some l, some m⟩ : PendingTasks α) = _
  by_cases h : 4 < m.length <;> simp [cancelLowPriorityTasks, h]

/-- A decoded RAW image as produced by the library postprocess call;
isUint8Rgb records whether the array has dtype uint8 and ndim 3, the
shape giving height then width. -/
structure RawImage where
  width : Nat
  height : Nat
  isUint8Rgb : Bool
  deriving DecidableEq, Repr

/-- A result dictionary crossing the process boundary; optional fields
model keys that are absent from the Python dict on some paths. -/
structure DecodeResult where
  taskId : Nat
  filePath : String
  success : Bool
  width : Option Nat
  height : Option Nat
  error : Option String
  deriving DecidableEq, Repr

/-- The per-task body of decode_raw_in_process, with the RAW library call
abstracted as a function returning either pixels or the message of the
exception it raised: a raised exception becomes a success=false result
carrying the message, an unexpected array format becomes a success=false
result with a format error, and a good decode a success=true result. -/
def workerProcessTask (decode : String → Except String RawImage)
    (path : String) (id : Nat) : DecodeResult :=
  match decode path with
  | Except.error e =>
    { taskId := id, filePath := path, success := false,
      width := none, height := none, error := some e }
  | Except.ok rgb =>
    if rgb.isUint8Rgb then
      { taskId := id, filePath := path, success := true,
        width := some rgb.width, height := some rgb.height, error := none }
    else
      { taskId := id, filePath := path, success := false,
        width := some rgb.width, height := some rgb.height,
        error := some "Unexpected data format" }

/-- One loop body of decode_raw_in_process once a (path, id) task has
been dequeued: above 95 percent memory the worker re-queues its own task
and sleeps instead of proceeding; otherwise the decode result is pushed
onto the output queue. -/
def workerHandleTask (decode : String → Except String RawImage)
    (memoryPercent : Nat) (path : String) (id : Nat)
    (inputQueue : List (Option (String × Nat)))
    (outputQueue : List DecodeResult) :
    List (Option (String × Nat)) × List DecodeResult :=
  if 95 < memoryPercent then (inputQueue ++ [some (path, id)], outputQueue)
  else (inputQueue, outputQueue ++ [workerProcessTask decode path id])

/-- The owning-side state of RawDecoderPool: the two inter-process queues
(the input queue also carries the poison value none), the monotonically
increasing task-id counter, the task-id to callback map, the running
flag, the number of live worker processes and a tally of join attempts
made on workers. -/
structure RawDecoderPoolState (κ : Type) where
  inputQueue : List (Option (String × Nat))
  outputQueue : List DecodeResult
  nextTaskId : Nat
  tasks : List (Nat × κ)
  running : Bool
  processes : Nat
  joinedWorkers : Nat
  deriving DecidableEq, Repr

/-- RawDecoderPool.decode_raw: refuse with none when not running;
otherwise allocate the next task id, record the callback, enqueue the
request and return the id. -/
def decodeRaw {κ : Type} (p : RawDecoderPoolState κ) (filePath : String)
    (callback : κ) : RawDecoderPoolState κ × Option Nat :=
  if p.running then
    ({ p with nextTaskId := p.nextTaskId + 1,
              tasks := p.tasks ++ [(p.nextTaskId, callback)],
              inputQueue := p.inputQueue ++ [some (filePath, p.nextTaskId)] },
     some p.nextTaskId)
  else (p, none)

/-- Fold decode_raw over a list of submissions, collecting the returned
ids in order. -/
def decodeRawAll {κ : Type} (p : RawDecoderPoolState κ) :
    List (String × κ) → RawDecoderPoolState κ × List (Option Nat)
  | [] => (p, [])
  | (path, cb) :: rest =>
    let r := decodeRaw p path cb
    let rs := decodeRawAll r.1 rest
    (rs.1, r.2 :: rs.2)

/-- Association lookup in the task-id to callback map (the membership
test of a Python dict). -/
def tasksFind {κ : Type} (id : Nat) : List (Nat × κ) → Option κ
  | [] => none
  | (k, c) :: rest => if k = id then some c else tasksFind id rest

/-- Removal of the entry for a task id, the other half of dict.pop; keys
of a dict are unique so removing the first occurrence suffices. -/
def tasksErase {κ : Type} (id : Nat) : List (Nat × κ) → List (Nat × κ)
  | [] => []
  | (k, c) :: rest => if k = id then rest else (k, c) :: tasksErase id rest

/-- Outcome of draining the result queue: the remaining queue, the
remaining callback map, the processed count, and the
(id, callback, result) invocations in chronological order. -/
structure DrainOutcome (κ : Type) where
  outputQueue : List DecodeResult
  tasks : List (Nat × κ)
  processed : Nat
  invoked : List (Nat × κ × DecodeResult)
  deriving DecidableEq, Repr

/-- The while-loop of RawDecoderPool.process_results: drain results while
budget remains; a result whose task id is in the map pops the callback
from the map before invoking it, an orphan result is consumed with only a
warning; both count toward the processed total. -/
def drainResults {κ : Type} :
    Nat → List DecodeResult → List (Nat × κ) → DrainOutcome κ
  | 0, q, m => ⟨q, m, 0, []⟩
  | _ + 1, [], m => ⟨[], m, 0, []⟩
  | budget + 1, r :: q, m =>
    match tasksFind r.taskId m with
    | some cb =>
      let o := drainResults budget q (tasksErase r.taskId m)
      ⟨o.outputQueue, o.tasks, o.processed + 1, (r.taskId, cb, r) :: o.invoked⟩
    | none =>
      let o := drainResults budget q m
      ⟨o.outputQueue, o.tasks, o.processed + 1, o.invoked⟩

/-- RawDecoderPool.process_results: returns 0 immediately when the pool
is no longer running, otherwise drains up to maxResults results on the
calling thread. -/
def processResults {κ : Type} (p : RawDecoderPoolState κ) (maxResults : Nat) :
    RawDecoderPoolState κ × Nat × List (Nat × κ × DecodeResult) :=
  if p.running then
    let o := drainResults maxResults p.outputQueue p.tasks
    ({ p with outputQueue := o.outputQueue, tasks := o.tasks },
     o.processed, o.invoked)
  else (p, 0, [])

/-- RawDecoderPool.shutdown: a second call returns immediately; the first
flips the running flag, pushes one poison value per worker, joins every
worker with a bounded timeout (force-terminating stragglers) and clears
the process list and the callback map. -/
def rawPoolShutdown {κ : Type} (p : RawDecoderPoolState κ) :
    RawDecoderPoolState κ :=
  if p.running then
    { p with running := false,
             inputQueue := p.inputQueue ++ List.replicate p.processes none,
             processes := 0,
             tasks := [],
             joinedWorkers := p.joinedWorkers + p.processes }
  else p

theorem range'_pairwise_lt : ∀ s n : Nat, (List.range' s n).Pairwise (· < ·)
  | _, 0 => List.Pairwise.nil
  | s, n + 1 => by
    show List.Pairwise _ (s :: List.range' (s + 1) n)
    refine List.Pairwise.cons ?_ (range'_pairwise_lt (s + 1) n)
    intro b hb
    have := (List.mem_range'_1.mp hb).1
    omega

theorem decodeRawAll_ids {κ : Type} :
    ∀ (subs : List (String × κ)) (p : RawDecoderPoolState κ),
      p.running = true →
      (decodeRawAll p subs).2
          = (List.range' p.nextTaskId subs.length).map some := by
  intro subs
  induction subs with
  | nil => intro p _; rfl
  | cons e rest ih =>
    intro p hp
    obtain ⟨path, cb⟩ := e
    rw [decodeRawAll]
    simp only [decodeRaw, hp, if_true]
    rw [ih _ (by simp [hp])]
    rfl

theorem tasksFind_some_mem {κ : Type} (id : Nat) :
    ∀ (m : List (Nat × κ)) (c : κ), tasksFind id m = some c →
      id ∈ m.map Prod.fst := by
  intro m
  induction m with
  | nil => intro c h; simp [tasksFind] at h
  | cons e rest ih =>
    intro c h
    rw [tasksFind] at h
    split at h
    · simp_all
    · exact List.mem_cons_of_mem _ (ih c h)

theorem tasksFind_none_of_not_mem {κ : Type} (id : Nat) :
    ∀ m : List (Nat × κ), id ∉ m.map Prod.fst → tasksFind id m = none := by
  intro m
  induction m with
  | nil => intro _; rfl
  | cons e rest ih =>
    obtain ⟨k, c⟩ := e
    intro h
    rw [List.map_cons, List.mem_cons] at h
    push_neg at h
    rw [tasksFind, if_neg (fun hk => h.1 hk.symm)]
    exact ih h.2

theorem tasksErase_keys_subset {κ : Type} (id : Nat) :
    ∀ m : List (Nat × κ), (tasksErase id m).map Prod.fst ⊆ m.map Prod.fst := by
  intro m
  induction m with
  | nil => exact fun _ h => h
  | cons e rest ih =>
    rw [tasksErase]
    split
    · exact fun a ha => List.mem_cons_of_mem _ ha
    · intro a ha
      rw [List.map_cons, List.mem_cons] at ha ⊢
      exact ha.imp (fun h => h) (fun hm => ih hm)

theorem tasksErase_nodup {κ : Type} (id : Nat) :
    ∀ m : List (Nat × κ), (m.map Prod.fst).Nodup →
      ((tasksErase id m).map Prod.fst).Nodup := by
  intro m
  induction m with
  | nil => intro h; exact h
  | cons e rest ih =>
    intro h
    rw [List.map_cons, List.nodup_cons] at h
    rw [tasksErase]
    split
    · exact h.2
    · rw [List.map_cons, List.nodup_cons]
      exact ⟨fun hm => h.1 (tasksErase_keys_subset id rest hm), ih h.2⟩

theorem tasksErase_not_mem {κ : Type} (id : Nat) :
    ∀ m : List (Nat × κ), (m.map Prod.fst).Nodup →
      id ∉ (tasksErase id m).map Prod.fst := by
  intro m
  induction m with
  | nil => intro _ h; simp [tasksErase] at h
  | cons e rest ih =>
    intro hnd
    rw [List.map_cons, List.nodup_cons] at hnd
    rw [tasksErase]
    split
    · intro hm
      rename_i hk
      exact hnd.1 (hk ▸ hm)
    · intro hm
      rw [List.map_cons, List.mem_cons] at hm
      rcases hm with hm | hm
      · rename_i hk; exact hk hm.symm
      · exact ih hnd.2 hm

theorem drainResults_spec {κ : Type} :
    ∀ (budget : Nat) (q : List DecodeResult) (m : List (Nat × κ)),
      (m.map Prod.fst).Nodup →
      ((drainResults budget q m).tasks.map Prod.fst ⊆ m.map Prod.fst) ∧
        ((drainResults budget q m).tasks.map Prod.fst).Nodup ∧
        ((drainResults budget q m).invoked.map (fun e => e.1)).Nodup ∧
        ∀ id ∈ (drainResults budget q m).invoked.map (fun e => e.1),
          id ∈ m.map Prod.fst ∧
            id ∉ (drainResults budget q m).tasks.map Prod.fst := by
  intro budget
  induction budget with
  | zero =>
    intro q m hnd
    exact ⟨fun a ha => ha, hnd, List.nodup_nil, by simp [drainResults]⟩
  | succ b ih =>
    intro q m hnd
    match q with
    | [] => exact ⟨fun a ha => ha, hnd, List.nodup_nil, by simp [drainResults]⟩
    | r :: q' =>
      rw [drainResults]
      cases hfind : tasksFind r.taskId m with
      | some cb =>
        simp only
        have hnd' := tasksErase_nodup r.taskId m hnd
        obtain ⟨hsub, hnodup, hinv, hmem⟩ := ih q' (tasksErase r.taskId m) hnd'
        have hidout := tasksErase_not_mem r.taskId m hnd
        refine ⟨fun a ha => tasksErase_keys_subset r.taskId m (hsub ha),
          hnodup, ?_, ?_⟩
        · rw [List.map_cons, List.nodup_cons]
          refine ⟨fun hm => ?_, hinv⟩
          exact hidout (hmem _ hm).1
        · intro id hid
          rw [List.map_cons, List.mem_cons] at hid
          rcases hid with hid | hid
          · subst hid
            refine ⟨tasksFind_some_mem _ m cb hfind, fun hm => ?_⟩
            exact hidout (hsub hm)
          · obtain ⟨h1, h2⟩ := hmem _ hid
            exact ⟨tasksErase_keys_subset r.taskId m h1, h2⟩
      | none =>
        simp only
        exact ih q' m hnd

/-- C3: across every submission sequence on a running pool the returned
task ids are exactly the consecutive range starting at the pool's
nextTaskId, hence pairwise distinct and strictly increasing; and in
process_results each invoked callback is popped from the pending map
before invocation, so with well-formed (duplicate-free) map keys no task
id is invoked twice, every invoked id is gone from the remaining map, and
the map never gains entries. -/
theorem c3_task_ids {κ : Type} (p : RawDecoderPoolState κ)
    (hp : p.running = true) (subs : List (String × κ)) (maxResults : Nat)
    (hnd : (p.tasks.map Prod.fst).Nodup) :
    (decodeRawAll p subs).2
        = (List.range' p.nextTaskId subs.length).map some ∧
      (List.range' p.nextTaskId subs.length).Pairwise (· < ·) ∧
      ((processResults p maxResults).2.2.map (fun e => e.1)).Nodup ∧
      (∀ id ∈ (processResults p maxResults).2.2.map (fun e => e.1),
        id ∉ (processResults p maxResults).1.tasks.map Prod.fst) ∧
      (processResults p maxResults).1.tasks.map Prod.fst
        ⊆ p.tasks.map Prod.fst := by
  obtain ⟨hsub, _, hinv, hmem⟩ :=
    drainResults_spec maxResults p.outputQueue p.tasks hnd
  refine ⟨decodeRawAll_ids subs p hp, range'_pairwise_lt _ _, ?_, ?_, ?_⟩
  · simpa [processResults, hp] using hinv
  · intro id hid
    simp only [processResults, hp, if_true] at hid ⊢
    exact (hmem id hid).2
  · simpa [processResults, hp] using hsub

/-- A concrete two-submission pool used to witness the task-id
theorem. -/
def rawPoolExample : RawDecoderPoolState Nat :=
  { inputQueue := [], outputQueue := [], nextTaskId := 0, tasks := [],
    running := true, processes := 1, joinedWorkers := 0 }

theorem c3_task_ids_witness :
    rawPoolExample.running = true ∧
      (rawPoolExample.tasks.map Prod.fst).Nodup ∧
      ((decodeRawAll rawPoolExample [("a.cr2", 0), ("b.nef", 1)]).2
          = (List.range' rawPoolExample.nextTaskId 2).map some ∧
        (List.range' rawPoolExample.nextTaskId 2).Pairwise (· < ·) ∧
        ((processResults rawPoolExample 5).2.2.map (fun e => e.1)).Nodup ∧
        (∀ id ∈ (processResults rawPoolExample 5).2.2.map (fun e => e.1),
          id ∉ (processResults rawPoolExample 5).1.tasks.map Prod.fst) ∧
        (processResults rawPoolExample 5).1.tasks.map Prod.fst
          ⊆ rawPoolExample.tasks.map Prod.fst) :=
  ⟨rfl, by decide,
    c3_task_ids rawPoolExample rfl [("a.cr2", 0), ("b.nef", 1)] 5 (by decide)⟩

/-- C5: a RAW decode request on a corrupt or unsupported file — one on
which the library call raises with a non-empty message — yields a
success=false result carrying that message, delivered through the normal
output queue; and the cache insertion guard rejects missing and null
pixmaps, so no cache entry is inserted for a failed render. -/
theorem c5_fail_closed (decode : String → Except String RawImage)
    (path : String) (id : Nat) (msg : String) (memoryPercent : Nat)
    (inq : List (Option (String × Nat))) (outq : List DecodeResult)
    (hdec : decode path = Except.error msg) (hmsg : msg ≠ "")
    (hmem : memoryPercent ≤ 95) :
    (workerHandleTask decode memoryPercent path id inq outq).2
        = outq ++ [workerProcessTask decode path id] ∧
      (workerProcessTask decode path id).success = false ∧
      (workerProcessTask decode path id).error = some msg ∧
      (workerProcessTask decode path id).error ≠ some "" ∧
      (workerProcessTask decode path id).error ≠ none ∧
      (∀ (limit : Nat) (cache : Cache) (p : String),
        addToCache limit cache p none = cache) ∧
      (∀ (limit : Nat) (cache : Cache) (p : String) (px : Pixmap),
        px.isNull = true → addToCache limit cache p (some px) = cache) := by
  have hres : workerProcessTask decode path id
      = { taskId := id, filePath := path, success := false,
          width := none, height := none, error := some msg } := by
    rw [workerProcessTask, hdec]
  refine ⟨?_, ?_, ?_, ?_, ?_, ?_, ?_⟩
  · rw [workerHandleTask, if_neg (by omega)]
  · rw [hres]
  · rw [hres]
  · rw [hres]; simpa using hmsg
  · rw [hres]; simp
  · intro limit cache p; rfl
  · intro limit cache p px hnull
    rw [addToCache]
    simp [hnull]

/-- A decode stub standing in for the RAW library raising an
unsupported-format exception on every file. -/
def corruptDecode : String → Except String RawImage :=
  fun _ => Except.error "Unsupported file format or not RAW file"

theorem c5_fail_closed_witness :
    corruptDecode "x.arw"
        = Except.error "Unsupported file format or not RAW file" ∧
      "Unsupported file format or not RAW file" ≠ "" ∧
      50 ≤ 95 ∧
      ((workerHandleTask corruptDecode 50 "x.arw" 0 [] []).2
          = [] ++ [workerProcessTask corruptDecode "x.arw" 0] ∧
        (workerProcessTask corruptDecode "x.arw" 0).success = false ∧
        (workerProcessTask corruptDecode "x.arw" 0).error
          = some "Unsupported file format or not RAW file" ∧
        (workerProcessTask corruptDecode "x.arw" 0).error ≠ some "" ∧
        (workerProcessTask corruptDecode "x.arw" 0).error ≠ none ∧
        (∀ (limit : Nat) (cache : Cache) (p : String),
          addToCache limit cache p none = cache) ∧
        (∀ (limit : Nat) (cache : Cache) (p : String) (px : Pixmap),
          px.isNull = true → addToCache limit cache p (some px) = cache)) :=
  ⟨rfl, by decide, by decide,
    c5_fail_closed corruptDecode "x.arw" 0
      "Unsupported file format or not RAW file" 50 [] [] rfl
      (by decide) (by decide)⟩

/-- C10: a drained result whose task id has no entry in the pending map
invokes no callback and leaves the map exactly as the processing of the
remaining queue leaves it, yet the orphan is consumed from the output
queue and still counts toward both the budget and the returned processed
count. -/
theorem c10_orphan_result {κ : Type} (p : RawDecoderPoolState κ)
    (r : DecodeResult) (q : List DecodeResult) (b : Nat)
    (hrun : p.running = true) (hq : p.outputQueue = r :: q)
    (horphan : r.taskId ∉ p.tasks.map Prod.fst) :
    (processResults p (b + 1)).2.1
        = (drainResults b q p.tasks : DrainOutcome κ).processed + 1 ∧
      (processResults p (b + 1)).2.2
        = (drainResults b q p.tasks : DrainOutcome κ).invoked ∧
      (processResults p (b + 1)).1.tasks
        = (drainResults b q p.tasks : DrainOutcome κ).tasks ∧
      (processResults p (b + 1)).1.outputQueue
        = (drainResults b q p.tasks : DrainOutcome κ).outputQueue := by
  have hstep : drainResults (b + 1) p.outputQueue p.tasks
      = ⟨(drainResults b q p.tasks : DrainOutcome κ).outputQueue,
          (drainResults b q p.tasks : DrainOutcome κ).tasks,
          (drainResults b q p.tasks : DrainOutcome κ).processed + 1,
          (drainResults b q p.tasks : DrainOutcome κ).invoked⟩ := by
    rw [hq, drainResults, tasksFind_none_of_not_mem r.taskId p.tasks horphan]
  simp [processResults, hrun, hstep]

/-- An orphan result whose id 5 has no pending callback. -/
def orphanResult : DecodeResult :=
  { taskId := 5, filePath := "x.cr2", success := false,
    width := none, height := none, error := some "cancelled" }

/-- A running pool holding only the orphan result. -/
def orphanPoolExample : RawDecoderPoolState Nat :=
  { inputQueue := [], outputQueue := [orphanResult], nextTaskId := 6,
    tasks := [], running := true, processes := 1, joinedWorkers := 0 }

theorem c10_orphan_result_witness :
    orphanPoolExample.running = true ∧
      orphanPoolExample.outputQueue = orphanResult :: [] ∧
      orphanResult.taskId ∉ orphanPoolExample.tasks.map Prod.fst ∧
      ((processResults orphanPoolExample 5).2.1
          = (drainResults 4 [] orphanPoolExample.tasks
              : DrainOutcome Nat).processed + 1 ∧
        (processResults orphanPoolExample 5).2.2
          = (drainResults 4 [] orphanPoolExample.tasks
              : DrainOutcome Nat).invoked ∧
        (processResults orphanPoolExample 5).1.tasks
          = (drainResults 4 [] orphanPoolExample.tasks
              : DrainOutcome Nat).tasks ∧
        (processResults orphanPoolExample 5).1.outputQueue
          = (drainResults 4 [] orphanPoolExample.tasks
              : DrainOutcome Nat).outputQueue) :=
  ⟨rfl, rfl, by decide,
    c10_orphan_result orphanPoolExample orphanResult [] 4 rfl rfl (by decide)⟩

/-- The imaging thread pool as the ResourceManager sees it: the three
priority queues, the tasks handed straight to the base executor by plain
submit, and the dispatcher's stop flag. -/
structure ImagingPoolState (α : Type) where
  queues : PriorityQueues α
  baseSubmitted : List α
  shutdownFlag : Bool
  deriving DecidableEq, Repr

/-- The mutable ResourceManager state: the running flag consulted by
every entry point, the tracked futures (identified by ids from a
counter), the pending-task bookkeeping, and both pools. -/
structure ResourceManagerState (α κ : Type) where
  running : Bool
  activeTasks : List Nat
  nextFutureId : Nat
  pendingTasks : PendingTasks α
  imagingPool : ImagingPoolState α
  rawPool : RawDecoderPoolState κ
  deriving DecidableEq, Repr

/-- ResourceManager.submit_imaging_task: refuse with none when not
running; otherwise submit to the underlying pool, track the returned
future in active_tasks and hand it back. -/
def submitImagingTask {α κ : Type} (s : ResourceManagerState α κ) (fn : α) :
    ResourceManagerState α κ × Option Nat :=
  if s.running then
    ({ s with
        imagingPool := { s.imagingPool with
          baseSubmitted := s.imagingPool.baseSubmitted ++ [fn] },
        activeTasks := s.activeTasks ++ [s.nextFutureId],
        nextFutureId := s.nextFutureId + 1 },
     some s.nextFutureId)
  else (s, none)

/-- ResourceManager.submit_imaging_task_with_priority: refuse with none
when not running; otherwise enqueue through submit_with_priority — no
future is created or tracked and the Python method falls off the end,
returning None. -/
def submitImagingTaskWithPriority {α κ : Type} (s : ResourceManagerState α κ)
    (priority : String) (fn : α) : ResourceManagerState α κ × Option Nat :=
  if s.running then
    ({ s with imagingPool := { s.imagingPool with
        queues := submitWithPriority s.imagingPool.queues priority fn } },
     none)
  else (s, none)

/-- ResourceManager.submit_raw_decoding: gated on the running flag, then
delegated to RawDecoderPool.decode_raw. -/
def submitRawDecoding {α κ : Type} (s : ResourceManagerState α κ)
    (filePath : String) (callback : κ) :
    ResourceManagerState α κ × Option Nat :=
  if s.running then
    let r := decodeRaw s.rawPool filePath callback
    ({ s with rawPool := r.1 }, r.2)
  else (s, none)

/-- ResourceManager.process_raw_results: gated on the running flag, then
delegated to RawDecoderPool.process_results. -/
def processRawResults {α κ : Type} (s : ResourceManagerState α κ)
    (maxResults : Nat) :
    ResourceManagerState α κ × Nat × List (Nat × κ × DecodeResult) :=
  if s.running then
    let r := processResults s.rawPool maxResults
    ({ s with rawPool := r.1 }, r.2.1, r.2.2)
  else (s, 0, [])

/-- ResourceManager.cancel_all_tasks: cancel every tracked future and
clear the active set, then best-effort drain the decoder pool's input and
output queues and clear its pending-callback map; returns the futures
that were cancelled. -/
def cancelAllTasks {α κ : Type} (s : ResourceManagerState α κ) :
    ResourceManagerState α κ × List Nat :=
  ({ s with
      activeTasks := [],
      rawPool := { s.rawPool with
        inputQueue := [], outputQueue := [], tasks := [] } },
   s.activeTasks)

/-- ResourceManager.shutdown: return immediately when already stopped;
otherwise flip the running flag, cancel all tasks, drain and stop the
imaging thread pool, then shut the decoder pool down. -/
def rmShutdown {α κ : Type} (s : ResourceManagerState α κ) :
    ResourceManagerState α κ :=
  if s.running then
    let s1 := { s with running := false }
    let s2 := (cancelAllTasks s1).1
    let s3 := { s2 with
      imagingPool := { s2.imagingPool with shutdownFlag := true } }
    { s3 with rawPool := rawPoolShutdown s3.rawPool }
  else s

theorem rmShutdown_not_running {α κ : Type} (s : ResourceManagerState α κ) :
    (rmShutdown s).running = false := by
  rw [rmShutdown]
  split
  · rfl
  · rename_i h
    simpa using h

/-- C8: shutdown is idempotent at both levels — a second call is the
identity and joins no worker again — and after the first shutdown every
submit entry point returns none without enqueuing work while
process_raw_results returns 0. -/
theorem c8_shutdown_idempotent {α κ : Type} (s : ResourceManagerState α κ)
    (p : RawDecoderPoolState κ) (prio : String) (fn : α) (path : String)
    (cb : κ) (n : Nat) :
    rmShutdown (rmShutdown s) = rmShutdown s ∧
      rawPoolShutdown (rawPoolShutdown p) = rawPoolShutdown p ∧
      (rawPoolShutdown (rawPoolShutdown p)).joinedWorkers
        = (rawPoolShutdown p).joinedWorkers ∧
      submitImagingTask (rmShutdown s) fn = (rmShutdown s, none) ∧
      submitImagingTaskWithPriority (rmShutdown s) prio fn
        = (rmShutdown s, none) ∧
      submitRawDecoding (rmShutdown s) path cb = (rmShutdown s, none) ∧
      processRawResults (rmShutdown s) n = (rmShutdown s, 0, []) := by
  have hrun := rmShutdown_not_running s
  have hstopped : (rawPoolShutdown p).running = false := by
    rw [rawPoolShutdown]
    split
    · rfl
    · rename_i h
      simpa using h
  have hpool : rawPoolShutdown (rawPoolShutdown p) = rawPoolShutdown p := by
    rw [rawPoolShutdown, if_neg (by simp [hstopped])]
  refine ⟨?_, hpool, by rw [hpool], ?_, ?_, ?_, ?_⟩
  · rw [rmShutdown, if_neg]; simp [hrun]
  · rw [submitImagingTask, if_neg]; simp [hrun]
  · rw [submitImagingTaskWithPriority, if_neg]; simp [hrun]
  · rw [submitRawDecoding, if_neg]; simp [hrun]
  · rw [processRawResults, if_neg]; simp [hrun]

/-- C9: a priority submission on a running manager returns none and
leaves the tracked active set unchanged, so a subsequent cancel_all_tasks
cancels exactly the futures that were already tracked and never a
priority-submitted task; a plain submission by contrast returns a future
and is tracked. -/
theorem c9_priority_not_tracked {α κ : Type} (s : ResourceManagerState α κ)
    (prio : String) (fn g : α) (hs : s.running = true) :
    (submitImagingTaskWithPriority s prio fn).2 = none ∧
      (submitImagingTaskWithPriority s prio fn).1.activeTasks
        = s.activeTasks ∧
      (cancelAllTasks (submitImagingTaskWithPriority s prio fn).1).2
        = s.activeTasks ∧
      (submitImagingTaskWithPriority s prio fn).1.rawPool = s.rawPool ∧
      (submitImagingTask s g).2 = some s.nextFutureId ∧
      (submitImagingTask s g).1.activeTasks
        = s.activeTasks ++ [s.nextFutureId] := by
  refine ⟨?_, ?_, ?_, ?_, ?_, ?_⟩ <;>
    simp [submitImagingTaskWithPriority, submitImagingTask, cancelAllTasks, hs]

/-- A small running manager used to witness the priority-submission
theorem. -/
def rmExample : ResourceManagerState Nat Nat :=
  { running := true,
    activeTasks := [100],
    nextFutureId := 101,
    pendingTasks := ⟨none, none⟩,
    imagingPool := ⟨⟨[], [], []⟩, [], false⟩,
    rawPool := rawPoolExample }

theorem c9_priority_not_tracked_witness :
    rmExample.running = true ∧
      ((submitImagingTaskWithPriority rmExample "high" 7).2 = none ∧
        (submitImagingTaskWithPriority rmExample "high" 7).1.activeTasks
          = rmExample.activeTasks ∧
        (cancelAllTasks (submitImagingTaskWithPriority rmExample "high" 7).1).2
          = rmExample.activeTasks ∧
        (submitImagingTaskWithPriority rmExample "high" 7).1.rawPool
          = rmExample.rawPool ∧
        (submitImagingTask rmExample 9).2 = some rmExample.nextFutureId ∧
        (submitImagingTask rmExample 9).1.activeTasks
          = rmExample.activeTasks ++ [rmExample.nextFutureId]) :=
  ⟨rfl, c9_priority_not_tracked rmExample "high" 7 9 rfl⟩

end PhotoSort
